import Mathlib

/-!
Verification of the max-protein selection core (`maxprotein.hh`):
the `Food` record, the aggregator `sum_food_vector`, the filter
`filter_food_vector`, the greedy selector `greedy_max_protein` and the
exhaustive selector `exhaustive_max_protein`, shallowly embedded over
`List Food` with mathematical integers (the spec conditions all
guarantees on overflow-free accumulation of the C++ `int` sums).
-/

/-- One food item in the USDA database (`class Food`).  The C++ fields are
`std::string` descriptions and `int` numerics; the constructor asserts the
strings non-empty and the numerics non-negative, captured by `Food.ValidRec`
below. -/
structure Food where
  description : String
  amount : String
  amount_g : Int
  kcal : Int
  protein_g : Int
deriving DecidableEq, Repr

/-- The invariant enforced by the `Food` constructor asserts: non-empty text
fields and non-negative numeric fields. -/
def Food.ValidRec (f : Food) : Prop :=
  f.description ≠ "" ∧ f.amount ≠ "" ∧ 0 ≤ f.amount_g ∧ 0 ≤ f.kcal ∧ 0 ≤ f.protein_g

instance (f : Food) : Decidable f.ValidRec := by
  unfold Food.ValidRec; infer_instance

/-- Every record of a sequence satisfies the `Food` constructor invariant. -/
def ValidFoods (foods : List Food) : Prop := ∀ f ∈ foods, f.ValidRec

instance (foods : List Food) : Decidable (ValidFoods foods) :=
  List.decidableBAll _ foods

/-- Aggregator `sum_food_vector`: the C++ function zeroes two accumulators and
adds each food's `kcal()` and `protein_g()` in sequence order; the pair
(total_kcal, total_protein_g) is returned here instead of writing through
reference parameters. -/
def sum_food_vector (foods : List Food) : Int × Int :=
  foods.foldl (fun t f => (t.1 + f.kcal, t.2 + f.protein_g)) (0, 0)

lemma sum_food_vector_foldl (foods : List Food) (a b : Int) :
    foods.foldl (fun t f => (t.1 + f.kcal, t.2 + f.protein_g)) (a, b) =
      (a + (foods.map Food.kcal).sum, b + (foods.map Food.protein_g).sum) := by
  induction foods generalizing a b with
  | nil => simp
  | cons f rest ih => simp [ih, add_assoc]

/-- Characterization of the aggregator as a pair of list sums. -/
lemma sum_food_vector_eq (foods : List Food) :
    sum_food_vector foods = ((foods.map Food.kcal).sum, (foods.map Food.protein_g).sum) := by
  simpa using sum_food_vector_foldl foods 0 0

lemma sum_food_vector_nil : sum_food_vector [] = (0, 0) := rfl

lemma sum_food_vector_append (l1 l2 : List Food) :
    sum_food_vector (l1 ++ l2) =
      ((sum_food_vector l1).1 + (sum_food_vector l2).1,
       (sum_food_vector l1).2 + (sum_food_vector l2).2) := by
  simp [sum_food_vector_eq]

lemma sum_food_vector_kcal_nonneg {foods : List Food}
    (h : ∀ f ∈ foods, 0 ≤ f.kcal) : 0 ≤ (sum_food_vector foods).1 := by
  rw [sum_food_vector_eq]
  exact List.sum_nonneg (by simpa using h)

lemma sum_food_vector_protein_nonneg {foods : List Food}
    (h : ∀ f ∈ foods, 0 ≤ f.protein_g) : 0 ≤ (sum_food_vector foods).2 := by
  rw [sum_food_vector_eq]
  exact List.sum_nonneg (by simpa using h)

/-- C8: `sum_food_vector` is a monoid homomorphism from sequences of records
under concatenation to pairs of integers under componentwise addition:
the empty sequence sums to `(0, 0)`, a singleton sums to the record's own
`(kcal, protein_g)`, and the sum of a concatenation is the componentwise sum
of the two sums. -/
theorem C8_sum_food_vector_monoid_hom :
    sum_food_vector [] = (0, 0) ∧
    (∀ f : Food, sum_food_vector [f] = (f.kcal, f.protein_g)) ∧
    (∀ l1 l2 : List Food,
      sum_food_vector (l1 ++ l2) =
        ((sum_food_vector l1).1 + (sum_food_vector l2).1,
         (sum_food_vector l1).2 + (sum_food_vector l2).2)) := by
  refine ⟨rfl, ?_, sum_food_vector_append⟩
  intro f
  simp [sum_food_vector_eq]

/-- Filter `filter_food_vector`: scan `source` in order and push each food with
`food->kcal() > min_kcal && food->kcal() <= max_kcal && result->size() != total_size`
onto the result.  The C++ comparison `result->size() != total_size` pits a
`size_t` against an `int`; any size a real vector can reach stays far below
`2^63`, and converting the `int` to `size_t` preserves equality exactly when the
mathematical values agree, so the test is modelled as `(result.length : Int) ≠ total_size`. -/
def filter_food_vector (source : List Food) (min_kcal max_kcal total_size : Int) :
    List Food :=
  source.foldl
    (fun result food =>
      if food.kcal > min_kcal ∧ food.kcal ≤ max_kcal ∧ (result.length : Int) ≠ total_size
      then result ++ [food] else result)
    []

/-- The calorie-range test of the filter, as a Boolean predicate on records. -/
def kcal_in_range (min_kcal max_kcal : Int) (f : Food) : Bool :=
  decide (min_kcal < f.kcal) && decide (f.kcal ≤ max_kcal)

lemma filter_foldl_take (min_kcal max_kcal : Int) (L : Nat) :
    ∀ (source acc : List Food), acc.length ≤ L →
      source.foldl
        (fun result food =>
          if food.kcal > min_kcal ∧ food.kcal ≤ max_kcal ∧ (result.length : Int) ≠ (L : Int)
          then result ++ [food] else result)
        acc
      = acc ++ (source.filter (kcal_in_range min_kcal max_kcal)).take (L - acc.length) := by
  intro source
  induction source with
  | nil => intro acc _; simp
  | cons food rest ih =>
    intro acc hacc
    by_cases hmatch : min_kcal < food.kcal ∧ food.kcal ≤ max_kcal
    · rcases Nat.lt_or_ge acc.length L with hlt | hge
      · have hne : (acc.length : Int) ≠ (L : Int) := by
          exact_mod_cast Nat.ne_of_lt hlt
        have hcond : food.kcal > min_kcal ∧ food.kcal ≤ max_kcal ∧
            (acc.length : Int) ≠ (L : Int) := ⟨hmatch.1, hmatch.2, hne⟩
        have hlen : (acc ++ [food]).length ≤ L := by
          simpa using hlt
        have hfil : kcal_in_range min_kcal max_kcal food = true := by
          simp [kcal_in_range, hmatch.1, hmatch.2]
        have hsub : L - acc.length = (L - (acc.length + 1)) + 1 :=
          (Nat.succ_pred_eq_of_pos (Nat.sub_pos_of_lt hlt)).symm
        simp only [List.foldl_cons, if_pos hcond, ih _ hlen]
        rw [hsub]
        simp [List.filter_cons, hfil, List.take_succ_cons]
      · have heq : acc.length = L := Nat.le_antisymm hacc hge
        have hcond : ¬ (food.kcal > min_kcal ∧ food.kcal ≤ max_kcal ∧
            (acc.length : Int) ≠ (L : Int)) := by
          rw [heq]; simp
        have hfil : kcal_in_range min_kcal max_kcal food = true := by
          simp [kcal_in_range, hmatch.1, hmatch.2]
        simp only [List.foldl_cons, if_neg hcond, ih _ hacc]
        rw [heq]
        simp [List.filter_cons, hfil]
    · have hcond : ¬ (food.kcal > min_kcal ∧ food.kcal ≤ max_kcal ∧
          (acc.length : Int) ≠ (L : Int)) := by
        intro hc; exact hmatch ⟨hc.1, hc.2.1⟩
      have hfil : kcal_in_range min_kcal max_kcal food = false := by
        simp only [kcal_in_range, Bool.and_eq_false_iff, decide_eq_false_iff_not]
        rcases Decidable.not_and_iff_or_not.mp hmatch with h | h
        · exact Or.inl h
        · exact Or.inr h
      simp only [List.foldl_cons, if_neg hcond, ih _ hacc]
      simp [List.filter_cons, hfil]

/-- A sample valid record used for concrete counterexamples and witnesses. -/
def foodA : Food := ⟨"apple", "1 cup", 1, 5, 2⟩

/-- C5, counterexample: at `total_size = -1` the claim demands the output be
the first `-1` matches (in particular output length `≤ -1`), but the filter
returns the matching record, so its length is `1 > -1`. -/
theorem C5_counterexample :
    filter_food_vector [foodA] 0 10 (-1) = [foodA] ∧
    ¬ (((filter_food_vector [foodA] 0 10 (-1)).length : Int) ≤ -1) := by
  constructor
  · rfl
  · decide

/-- C5, amended: for every source sequence, bounds, and NON-NEGATIVE limit
`total_size`, the filter returns exactly the first `total_size` records of the
source, in source order, satisfying `min_kcal < kcal ≤ max_kcal` (all matches
when fewer match); consequently every output record satisfies the bounds, the
output length is at most `total_size`, and the output is an order-preserving
sub-sequence of the input. -/
theorem C5_filter_first_matches (source : List Food) (min_kcal max_kcal total_size : Int)
    (h : 0 ≤ total_size) :
    filter_food_vector source min_kcal max_kcal total_size =
      (source.filter (kcal_in_range min_kcal max_kcal)).take total_size.toNat ∧
    (∀ r ∈ filter_food_vector source min_kcal max_kcal total_size,
      min_kcal < r.kcal ∧ r.kcal ≤ max_kcal) ∧
    ((filter_food_vector source min_kcal max_kcal total_size).length : Int) ≤ total_size ∧
    (filter_food_vector source min_kcal max_kcal total_size).Sublist source := by
  obtain ⟨L, rfl⟩ : ∃ Lv : Nat, total_size = (Lv : Int) :=
    ⟨total_size.toNat, (Int.toNat_of_nonneg h).symm⟩
  have hmain : filter_food_vector source min_kcal max_kcal (L : Int) =
      (source.filter (kcal_in_range min_kcal max_kcal)).take ((L : Int)).toNat := by
    unfold filter_food_vector
    have h2 := filter_foldl_take min_kcal max_kcal L source [] (by simp)
    simpa using h2
  refine ⟨hmain, ?_, ?_, ?_⟩
  · intro r hr
    rw [hmain] at hr
    have hrf : r ∈ source.filter (kcal_in_range min_kcal max_kcal) :=
      (List.take_sublist _ _).subset hr
    have := (List.mem_filter.mp hrf).2
    simp only [kcal_in_range, Bool.and_eq_true, decide_eq_true_eq] at this
    exact this
  · rw [hmain]
    have hlen : ((L : Int)).toNat = L := by simp
    rw [hlen]
    exact_mod_cast List.length_take_le _ _
  · rw [hmain]
    exact (List.take_sublist _ _).trans (List.filter_sublist _)

/-- C5, witness for the amended theorem at a concrete input. -/
theorem C5_witness :
    (0 : Int) ≤ 1 ∧
    (filter_food_vector [foodA] 0 10 1 =
      (([foodA].filter (kcal_in_range 0 10)).take (1 : Int).toNat) ∧
    (∀ r ∈ filter_food_vector [foodA] 0 10 1, (0 : Int) < r.kcal ∧ r.kcal ≤ 10) ∧
    ((filter_food_vector [foodA] 0 10 1).length : Int) ≤ 1 ∧
    (filter_food_vector [foodA] 0 10 1).Sublist [foodA]) :=
  ⟨by norm_num, C5_filter_first_matches [foodA] 0 10 1 (by norm_num)⟩

/-- C9: when `total_size` is negative, the truncation test
`result->size() != total_size` compares an unsigned size with a negative
signed limit and can never be an equality, so the filter returns ALL records
matching the calorie bounds with no truncation at all. -/
theorem C9_negative_limit_no_truncation (source : List Food)
    (min_kcal max_kcal total_size : Int) (h : total_size < 0) :
    filter_food_vector source min_kcal max_kcal total_size =
      source.filter (kcal_in_range min_kcal max_kcal) := by
  unfold filter_food_vector
  suffices hgen : ∀ (src acc : List Food),
      src.foldl
        (fun result food =>
          if food.kcal > min_kcal ∧ food.kcal ≤ max_kcal ∧ (result.length : Int) ≠ total_size
          then result ++ [food] else result)
        acc
      = acc ++ src.filter (kcal_in_range min_kcal max_kcal) by
    simpa using hgen source []
  intro src
  induction src with
  | nil => intro acc; simp
  | cons food rest ih =>
    intro acc
    have hne : (acc.length : Int) ≠ total_size := by
      intro hc
      have : (0 : Int) ≤ (acc.length : Int) := by positivity
      omega
    by_cases hmatch : min_kcal < food.kcal ∧ food.kcal ≤ max_kcal
    · have hfil : kcal_in_range min_kcal max_kcal food = true := by
        simp [kcal_in_range, hmatch.1, hmatch.2]
      simp only [List.foldl_cons, if_pos (And.intro hmatch.1 (And.intro hmatch.2 hne)), ih]
      simp [List.filter_cons, hfil]
    · have hfil : kcal_in_range min_kcal max_kcal food = false := by
        simp only [kcal_in_range, Bool.and_eq_false_iff, decide_eq_false_iff_not]
        rcases Decidable.not_and_iff_or_not.mp hmatch with hc | hc
        · exact Or.inl hc
        · exact Or.inr hc
      have hcond : ¬ (food.kcal > min_kcal ∧ food.kcal ≤ max_kcal ∧
          (acc.length : Int) ≠ total_size) := by
        intro hc; exact hmatch ⟨hc.1, hc.2.1⟩
      simp only [List.foldl_cons, if_neg hcond, ih]
      simp [List.filter_cons, hfil]

/-- C9, witness at a concrete input with a negative limit. -/
theorem C9_witness :
    filter_food_vector [foodA] 0 10 (-1) = [foodA].filter (kcal_in_range 0 10) :=
  C9_negative_limit_no_truncation [foodA] 0 10 (-1) (by norm_num)

/-- The sentinel record `Food(" ", " ", 0, 0, 0)` that `greedy_max_protein`
allocates at the top of each loop iteration to seed its maximum-protein scan. -/
def dummyFood : Food := ⟨" ", " ", 0, 0, 0⟩

/-- The inner scan of `greedy_max_protein`: walk the working list with the
current best record `f`, its position `index`, and the running position
`counter`; a food strictly greater in protein than the current best replaces
it (the scan uses `>`, so the earliest maximum is kept). -/
def scan_step : List Food → Food → Nat → Nat → Food × Nat
  | [], f, index, _ => (f, index)
  | food :: rest, f, index, counter =>
    if food.protein_g > f.protein_g then
      scan_step rest food counter (counter + 1)
    else
      scan_step rest f index (counter + 1)

lemma scan_step_index_bound : ∀ (l : List Food) (f : Food) (index counter : Nat),
    (scan_step l f index counter).2 = index ∨
    (counter ≤ (scan_step l f index counter).2 ∧
      (scan_step l f index counter).2 < counter + l.length) := by
  intro l
  induction l with
  | nil => intro f index counter; exact Or.inl rfl
  | cons food rest ih =>
    intro f index counter
    rw [scan_step]
    by_cases hp : food.protein_g > f.protein_g
    · rw [if_pos hp]
      rcases ih food counter (counter + 1) with h | h
      · right
        rw [List.length_cons]
        omega
      · right
        rw [List.length_cons]
        omega
    · rw [if_neg hp]
      rcases ih f index (counter + 1) with h | h
      · exact Or.inl h
      · right
        rw [List.length_cons]
        omega

lemma scan_step_lt_length {l : List Food} (h : l ≠ []) :
    (scan_step l dummyFood 0 0).2 < l.length := by
  rcases scan_step_index_bound l dummyFood 0 0 with h0 | h0
  · rw [h0]
    exact List.length_pos.mpr h
  · simpa using h0.2

/-- The `while (!todo.empty())` loop of `greedy_max_protein`: scan the working
list for the earliest strictly-maximal-protein record (seeded with the
sentinel `dummyFood`), erase the record at the found index, and append the
scanned record to the result when it fits the remaining budget
(`result_cal + f->kcal() <= total_kcal`). -/
def greedy_loop (todo : List Food) (total_kcal result_cal : Int) (result : List Food) :
    List Food :=
  if htodo : todo = [] then result
  else
    if result_cal + (scan_step todo dummyFood 0 0).1.kcal ≤ total_kcal then
      greedy_loop (todo.eraseIdx (scan_step todo dummyFood 0 0).2) total_kcal
        (result_cal + (scan_step todo dummyFood 0 0).1.kcal)
        (result ++ [(scan_step todo dummyFood 0 0).1])
    else
      greedy_loop (todo.eraseIdx (scan_step todo dummyFood 0 0).2) total_kcal
        result_cal result
termination_by todo.length
decreasing_by
  all_goals
    rw [List.length_eraseIdx_of_lt (scan_step_lt_length htodo)]
    exact Nat.sub_lt (List.length_pos.mpr htodo) Nat.one_pos

/-- Greedy selector `greedy_max_protein`: copy the candidates into a working
list and run the selection loop with a zero running calorie total and an empty
result. -/
def greedy_max_protein (foods : List Food) (total_kcal : Int) : List Food :=
  greedy_loop foods total_kcal 0 []

/-- Number of iterations the greedy loop performs on a given working list:
one per pass, recursing on the same erased list the loop recurses on. -/
def greedy_iterations (todo : List Food) : Nat :=
  if htodo : todo = [] then 0
  else 1 + greedy_iterations (todo.eraseIdx (scan_step todo dummyFood 0 0).2)
termination_by todo.length
decreasing_by
  rw [List.length_eraseIdx_of_lt (scan_step_lt_length htodo)]
  exact Nat.sub_lt (List.length_pos.mpr htodo) Nat.one_pos

lemma greedy_iterations_eq (todo : List Food) : greedy_iterations todo = todo.length := by
  induction todo using greedy_iterations.induct with
  | case1 =>
    rw [greedy_iterations]
    simp
  | case2 todo htodo ih =>
    have hpos : 0 < todo.length := List.length_pos.mpr htodo
    rw [greedy_iterations, dif_neg htodo, ih,
      List.length_eraseIdx_of_lt (scan_step_lt_length htodo)]
    omega

/-- C7: each iteration of the greedy loop removes exactly one record from the
working list, and the loop terminates after exactly `|candidates|` iterations
(the embedded loop is total by well-founded recursion on the working list's
length). -/
theorem C7_greedy_iterations_eq_length (todo : List Food) :
    greedy_iterations todo = todo.length ∧
    (todo ≠ [] →
      (todo.eraseIdx (scan_step todo dummyFood 0 0).2).length = todo.length - 1) :=
  ⟨greedy_iterations_eq todo,
   fun h => List.length_eraseIdx_of_lt (scan_step_lt_length h)⟩

/-- C7, witness at a concrete one-element working list. -/
theorem C7_witness :
    ([foodA] ≠ []) ∧
    (([foodA].eraseIdx (scan_step [foodA] dummyFood 0 0).2).length = [foodA].length - 1) :=
  ⟨by simp, (C7_greedy_iterations_eq_length [foodA]).2 (by simp)⟩

lemma sum_food_vector_singleton (f : Food) : sum_food_vector [f] = (f.kcal, f.protein_g) := by
  simp [sum_food_vector_eq]

lemma greedy_loop_kcal_le (N : Nat) :
    ∀ (todo : List Food), todo.length ≤ N →
    ∀ (total_kcal result_cal : Int) (result : List Food),
    (sum_food_vector result).1 = result_cal → result_cal ≤ total_kcal →
    (sum_food_vector (greedy_loop todo total_kcal result_cal result)).1 ≤ total_kcal := by
  induction N with
  | zero =>
    intro todo hlen total_kcal result_cal result hsum hle
    have htodo : todo = [] := List.length_eq_zero.mp (Nat.le_zero.mp hlen)
    rw [greedy_loop, dif_pos htodo, hsum]
    exact hle
  | succ n ih =>
    intro todo hlen total_kcal result_cal result hsum hle
    by_cases htodo : todo = []
    · rw [greedy_loop, dif_pos htodo, hsum]
      exact hle
    · have hlt : (scan_step todo dummyFood 0 0).2 < todo.length :=
        scan_step_lt_length htodo
      have hlen2 : (todo.eraseIdx (scan_step todo dummyFood 0 0).2).length ≤ n := by
        rw [List.length_eraseIdx_of_lt hlt]
        omega
      rw [greedy_loop, dif_neg htodo]
      by_cases hfit : result_cal + (scan_step todo dummyFood 0 0).1.kcal ≤ total_kcal
      · rw [if_pos hfit]
        refine ih _ hlen2 _ _ _ ?_ hfit
        rw [sum_food_vector_append, hsum, sum_food_vector_singleton]
      · rw [if_neg hfit]
        exact ih _ hlen2 _ _ _ hsum hle

/-- C3, counterexample: with a negative budget the returned sequence is empty
and its calorie sum `0` exceeds the budget `-1`, so the claim fails without a
sign restriction on `total_kcal`. -/
theorem C3_counterexample :
    greedy_max_protein [] (-1) = [] ∧
    ¬ ((sum_food_vector (greedy_max_protein [] (-1))).1 ≤ -1) := by
  have h : greedy_max_protein [] (-1) = [] := by
    unfold greedy_max_protein
    rw [greedy_loop]
    simp
  refine ⟨h, ?_⟩
  rw [h]
  decide

/-- C3, amended: for every candidate sequence and every NON-NEGATIVE budget
`total_kcal`, the calorie sum of the greedy result stays within the budget. -/
theorem C3_greedy_within_budget (foods : List Food) (total_kcal : Int)
    (h : 0 ≤ total_kcal) :
    (sum_food_vector (greedy_max_protein foods total_kcal)).1 ≤ total_kcal := by
  unfold greedy_max_protein
  exact greedy_loop_kcal_le foods.length foods (le_refl _) total_kcal 0 [] rfl h

/-- C3, witness for the amended theorem at a concrete input. -/
theorem C3_witness :
    (0 : Int) ≤ 3 ∧ (sum_food_vector (greedy_max_protein [foodA] 3)).1 ≤ 3 :=
  ⟨by norm_num, C3_greedy_within_budget [foodA] 3 (by norm_num)⟩

/-- A valid record with zero protein and zero calories, on which the greedy
scan never improves on its sentinel seed. -/
def foodZ : Food := ⟨"rice cake", "1 cake", 9, 0, 0⟩

/-- C2, failing input: on `[foodZ]` with budget `0`, no food beats the
sentinel's protein `0`, so the scan's `f` is still the sentinel when the
budget test passes, and the sentinel — a record that is NOT an element of the
input — is pushed into the result. -/
theorem C2_sentinel_leaks_into_result :
    greedy_max_protein [foodZ] 0 = [dummyFood] ∧ dummyFood ∉ [foodZ] := by
  constructor
  · have h1 : greedy_max_protein [foodZ] 0 = greedy_loop [] 0 0 ([] ++ [dummyFood]) := by
      unfold greedy_max_protein
      rw [greedy_loop]
      norm_num [scan_step, foodZ, dummyFood]
    rw [h1, greedy_loop]
    simp
  · decide

/-- The trial subset encoded by mask `bits`: the C++ inner loop pushes
`foods[j]` iff `((bits >> j) & 1) == 1`, for `j` from `0` to `n-1` in order;
expressed by structural recursion, testing the low bit and halving the mask as
each food is passed (bit `j` of `bits` is the low bit of `bits / 2^j`). -/
def subset_of_mask : List Food → Nat → List Food
  | [], _ => []
  | f :: rest, bits =>
    if bits % 2 = 1 then f :: subset_of_mask rest (bits / 2)
    else subset_of_mask rest (bits / 2)

lemma subset_of_mask_mem : ∀ (foods : List Food) (bits : Nat) (r : Food),
    r ∈ subset_of_mask foods bits → r ∈ foods := by
  intro foods
  induction foods with
  | nil => intro bits r h; simp [subset_of_mask] at h
  | cons f rest ih =>
    intro bits r h
    rw [subset_of_mask] at h
    by_cases hb : bits % 2 = 1
    · rw [if_pos hb] at h
      rcases List.mem_cons.mp h with h1 | h1
      · exact h1 ▸ List.mem_cons_self f rest
      · exact List.mem_cons_of_mem f (ih _ _ h1)
    · rw [if_neg hb] at h
      exact List.mem_cons_of_mem f (ih _ _ h)

lemma subset_of_mask_ne_nil : ∀ (foods : List Food) (bits : Nat),
    bits ≠ 0 → bits < 2 ^ foods.length → subset_of_mask foods bits ≠ [] := by
  intro foods
  induction foods with
  | nil =>
    intro bits h0 hlt
    rw [List.length_nil, pow_zero] at hlt
    omega
  | cons f rest ih =>
    intro bits h0 hlt
    rw [subset_of_mask]
    by_cases hb : bits % 2 = 1
    · rw [if_pos hb]
      simp
    · rw [if_neg hb]
      have hpow : (2 : Nat) ^ (f :: rest).length = 2 * 2 ^ rest.length := by
        rw [List.length_cons, pow_succ]
        ring
      apply ih
      · omega
      · omega

/-- One mask iteration of `exhaustive_max_protein`: total the trial subset for
`bits` and the tracked best, and replace the best when the trial fits the
budget and `best->empty() || cand_protein > best_protein`. -/
def exh_step (foods : List Food) (total_kcal : Int) (best : List Food) (bits : Nat) :
    List Food :=
  if (sum_food_vector (subset_of_mask foods bits)).1 ≤ total_kcal then
    if best = [] ∨ (sum_food_vector (subset_of_mask foods bits)).2 > (sum_food_vector best).2
    then subset_of_mask foods bits
    else best
  else best

/-- Exhaustive selector `exhaustive_max_protein`: `assert(n < 64)` is modelled
by returning `none` when the precondition fails; otherwise every mask from `0`
to `2^n - 1` is folded over (the C++ bound `pow(2, n)` is exact as a double for
`n ≤ 63`, so the loop runs exactly `2^n` times), starting from an empty best
vector. -/
def exhaustive_max_protein (foods : List Food) (total_kcal : Int) : Option (List Food) :=
  if foods.length < 64 then
    some ((List.range (2 ^ foods.length)).foldl (exh_step foods total_kcal) [])
  else none

lemma foldl_range_inv {α : Type} (f : α → Nat → α) (init : α) (N : Nat)
    (P : Nat → α → Prop) (h0 : P 0 init)
    (hstep : ∀ k, k < N → ∀ a, P k a → P (k + 1) (f a k)) :
    P N ((List.range N).foldl f init) := by
  induction N with
  | zero => simpa using h0
  | succ n ih =>
    rw [List.range_succ, List.foldl_append]
    simp only [List.foldl_cons, List.foldl_nil]
    exact hstep n (Nat.lt_succ_self n) _
      (ih (fun k hk a ha => hstep k (Nat.lt_succ_of_lt hk) a ha))

/-- C6: the exhaustive selector hits its precondition failure (`assert(n < 64)`,
modelled as `none`) exactly when the candidate sequence has 64 or more
records, and runs normally for every smaller sequence. -/
theorem C6_exhaustive_precondition_iff (foods : List Food) (total_kcal : Int) :
    exhaustive_max_protein foods total_kcal = none ↔ 64 ≤ foods.length := by
  unfold exhaustive_max_protein
  split
  · rename_i h
    simp
    omega
  · rename_i h
    simp
    omega

lemma exh_fold_invariant (foods : List Food) (total_kcal : Int)
    (hval : ValidFoods foods) (hk : 0 ≤ total_kcal) :
    (∀ r ∈ (List.range (2 ^ foods.length)).foldl (exh_step foods total_kcal) [], r ∈ foods) ∧
    (sum_food_vector ((List.range (2 ^ foods.length)).foldl (exh_step foods total_kcal) [])).1
      ≤ total_kcal ∧
    (∀ bits < 2 ^ foods.length,
      (sum_food_vector (subset_of_mask foods bits)).1 ≤ total_kcal →
      (sum_food_vector (subset_of_mask foods bits)).2 ≤
        (sum_food_vector
          ((List.range (2 ^ foods.length)).foldl (exh_step foods total_kcal) [])).2) := by
  have main := foldl_range_inv (exh_step foods total_kcal) [] (2 ^ foods.length)
    (fun k best =>
      (∀ r ∈ best, r ∈ foods) ∧
      (sum_food_vector best).1 ≤ total_kcal ∧
      (∀ bits < k,
        (sum_food_vector (subset_of_mask foods bits)).1 ≤ total_kcal →
        (sum_food_vector (subset_of_mask foods bits)).2 ≤ (sum_food_vector best).2))
    ?_ ?_
  · exact ⟨main.1, main.2.1, main.2.2⟩
  · refine ⟨by simp, ?_, ?_⟩
    · rw [sum_food_vector_nil]
      exact hk
    · intro bits hbits
      exact absurd hbits (Nat.not_lt_zero _)
  · intro k _ best hbest
    obtain ⟨hmem, hfeas, hmax⟩ := hbest
    unfold exh_step
    by_cases hcand : (sum_food_vector (subset_of_mask foods k)).1 ≤ total_kcal
    · rw [if_pos hcand]
      by_cases hrepl : best = [] ∨
          (sum_food_vector (subset_of_mask foods k)).2 > (sum_food_vector best).2
      · rw [if_pos hrepl]
        have hble : (sum_food_vector best).2 ≤ (sum_food_vector (subset_of_mask foods k)).2 := by
          rcases hrepl with hb | hb
          · rw [hb, sum_food_vector_nil]
            apply sum_food_vector_protein_nonneg
            intro f hf
            exact ((hval f (subset_of_mask_mem foods k f hf)).2.2.2.2)
          · exact le_of_lt hb
        refine ⟨fun r hr => subset_of_mask_mem foods k r hr, hcand, ?_⟩
        intro bits hbits hfeas2
        rcases Nat.lt_succ_iff_lt_or_eq.mp hbits with hlt | heq
        · exact le_trans (hmax bits hlt hfeas2) hble
        · rw [heq]
      · rw [if_neg hrepl]
        push_neg at hrepl
        refine ⟨hmem, hfeas, ?_⟩
        intro bits hbits hfeas2
        rcases Nat.lt_succ_iff_lt_or_eq.mp hbits with hlt | heq
        · exact hmax bits hlt hfeas2
        · rw [heq]
          exact hrepl.2
    · rw [if_neg hcand]
      refine ⟨hmem, hfeas, ?_⟩
      intro bits hbits hfeas2
      rcases Nat.lt_succ_iff_lt_or_eq.mp hbits with hlt | heq
      · exact hmax bits hlt hfeas2
      · rw [heq] at hfeas2
        exact absurd hfeas2 hcand

/-- C1, counterexample: with a negative budget the claim's requirement that the
returned subset's calories fit the budget fails: on the empty candidate
sequence with budget `-1`, the selector returns the empty subset whose calorie
sum `0` exceeds `-1`. -/
theorem C1_counterexample :
    exhaustive_max_protein [] (-1) = some [] ∧
    ¬ ((sum_food_vector []).1 ≤ (-1 : Int)) := by
  constructor
  · rfl
  · decide

/-- C1, amended: for every VALID candidate sequence (the `Food` constructor
invariant) of size `n < 64` and every NON-NEGATIVE budget, the exhaustive
selector returns a subset of the candidates whose calorie total fits the
budget and whose protein total is at least that of every mask-enumerable
subset whose calorie total fits the budget. -/
theorem C1_exhaustive_optimal (foods : List Food) (total_kcal : Int)
    (hval : ValidFoods foods) (hn : foods.length < 64) (hk : 0 ≤ total_kcal) :
    ∃ best, exhaustive_max_protein foods total_kcal = some best ∧
      (∀ r ∈ best, r ∈ foods) ∧
      (sum_food_vector best).1 ≤ total_kcal ∧
      (∀ bits < 2 ^ foods.length,
        (sum_food_vector (subset_of_mask foods bits)).1 ≤ total_kcal →
        (sum_food_vector (subset_of_mask foods bits)).2 ≤ (sum_food_vector best).2) := by
  refine ⟨(List.range (2 ^ foods.length)).foldl (exh_step foods total_kcal) [], ?_, ?_⟩
  · unfold exhaustive_max_protein
    rw [if_pos hn]
  · exact exh_fold_invariant foods total_kcal hval hk

/-- C1, witness for the amended theorem at a concrete valid input. -/
theorem C1_witness :
    ValidFoods [foodA] ∧ [foodA].length < 64 ∧ (0 : Int) ≤ 5 ∧
    (∃ best, exhaustive_max_protein [foodA] 5 = some best ∧
      (∀ r ∈ best, r ∈ [foodA]) ∧
      (sum_food_vector best).1 ≤ 5 ∧
      (∀ bits < 2 ^ [foodA].length,
        (sum_food_vector (subset_of_mask [foodA] bits)).1 ≤ 5 →
        (sum_food_vector (subset_of_mask [foodA] bits)).2 ≤ (sum_food_vector best).2)) :=
  ⟨by decide, by decide, by decide,
   C1_exhaustive_optimal [foodA] 5 (by decide) (by decide) (by decide)⟩

/-- C10: with any negative budget and a valid candidate sequence of size
`n < 64`, no trial subset is ever feasible (calorie sums of valid records are
non-negative), so the best vector is never assigned and the selector returns
normally with the empty sequence. -/
theorem C10_exhaustive_negative_budget (foods : List Food) (total_kcal : Int)
    (hval : ValidFoods foods) (hn : foods.length < 64) (hk : total_kcal < 0) :
    exhaustive_max_protein foods total_kcal = some [] := by
  unfold exhaustive_max_protein
  rw [if_pos hn]
  have main := foldl_range_inv (exh_step foods total_kcal) [] (2 ^ foods.length)
    (fun _ best => best = []) rfl ?_
  · rw [main]
  · intro k _ best hbest
    unfold exh_step
    have hfeas : ¬ (sum_food_vector (subset_of_mask foods k)).1 ≤ total_kcal := by
      have h0 : 0 ≤ (sum_food_vector (subset_of_mask foods k)).1 := by
        apply sum_food_vector_kcal_nonneg
        intro f hf
        exact (hval f (subset_of_mask_mem foods k f hf)).2.2.2.1
      omega
    rw [if_neg hfeas]
    exact hbest

/-- C10, witness at a concrete valid input with a negative budget. -/
theorem C10_witness :
    ValidFoods [foodA] ∧ [foodA].length < 64 ∧ (-1 : Int) < 0 ∧
    exhaustive_max_protein [foodA] (-1) = some [] :=
  ⟨by decide, by decide, by decide,
   C10_exhaustive_negative_budget [foodA] (-1) (by decide) (by decide) (by decide)⟩

lemma exh_fold_nil_iff (foods : List Food) (total_kcal : Int) :
    (List.range (2 ^ foods.length)).foldl (exh_step foods total_kcal) [] = [] ↔
    ∀ bits < 2 ^ foods.length,
      (sum_food_vector (subset_of_mask foods bits)).1 ≤ total_kcal →
      subset_of_mask foods bits = [] := by
  constructor
  · intro hres bits hbits hfeas
    by_contra hne
    have main := foldl_range_inv (exh_step foods total_kcal) [] (2 ^ foods.length)
      (fun k best => bits < k → best ≠ [])
      (fun h => absurd h (Nat.not_lt_zero _)) ?_
    · exact (main hbits) hres
    · intro k hk best hbest hlt
      unfold exh_step
      rcases Nat.lt_succ_iff_lt_or_eq.mp hlt with hkgt | hkeq
      · have hb := hbest hkgt
        by_cases hfeas2 : (sum_food_vector (subset_of_mask foods k)).1 ≤ total_kcal
        · rw [if_pos hfeas2]
          by_cases hrepl : best = [] ∨
              (sum_food_vector (subset_of_mask foods k)).2 > (sum_food_vector best).2
          · rw [if_pos hrepl]
            exact subset_of_mask_ne_nil foods k (by omega) hk
          · rw [if_neg hrepl]
            exact hb
        · rw [if_neg hfeas2]
          exact hb
      · subst hkeq
        rw [if_pos hfeas]
        by_cases hrepl : best = [] ∨
            (sum_food_vector (subset_of_mask foods bits)).2 > (sum_food_vector best).2
        · rw [if_pos hrepl]
          exact hne
        · rw [if_neg hrepl]
          push_neg at hrepl
          exact hrepl.1
  · intro hall
    refine foldl_range_inv (exh_step foods total_kcal) [] (2 ^ foods.length)
      (fun _ best => best = []) rfl ?_
    intro k hk best hbest
    unfold exh_step
    by_cases hfeas : (sum_food_vector (subset_of_mask foods k)).1 ≤ total_kcal
    · rw [if_pos hfeas]
      by_cases hrepl : best = [] ∨
          (sum_food_vector (subset_of_mask foods k)).2 > (sum_food_vector best).2
      · rw [if_pos hrepl]
        exact hall k hk hfeas
      · rw [if_neg hrepl]
        exact hbest
    · rw [if_neg hfeas]
      exact hbest

/-- C4, counterexample: on the single zero-protein zero-calorie record `foodZ`
with budget `0`, the maximum protein among feasible subsets (namely `0`) is
achieved by the empty subset — the first such subset in mask order — yet the
selector does not return the empty subset: the `best->empty()` disjunct lets
mask `1` replace the still-empty best without a strict protein improvement. -/
theorem C4_counterexample :
    (∀ bits < 2 ^ [foodZ].length,
      (sum_food_vector (subset_of_mask [foodZ] bits)).1 ≤ (0 : Int) →
      (sum_food_vector (subset_of_mask [foodZ] bits)).2 ≤
        (sum_food_vector ([] : List Food)).2) ∧
    exhaustive_max_protein [foodZ] 0 ≠ some [] := by
  decide

/-- C4, amended: the tracked best is replaced when a feasible trial subset has
strictly greater protein OR when the tracked vector is still empty — and the
empty subset recorded at mask `0` leaves it empty — so the returned subset is
empty exactly when every feasible mask-subset is empty; in particular, when
the empty subset ties for maximum protein with some feasible nonempty subset,
a nonempty subset (the first feasible one in mask order) is returned instead
of the empty one. -/
theorem C4_exhaustive_empty_iff (foods : List Food) (total_kcal : Int)
    (hn : foods.length < 64) :
    ∀ r, exhaustive_max_protein foods total_kcal = some r →
      (r = [] ↔ ∀ bits < 2 ^ foods.length,
        (sum_food_vector (subset_of_mask foods bits)).1 ≤ total_kcal →
        subset_of_mask foods bits = []) := by
  intro r hr
  unfold exhaustive_max_protein at hr
  rw [if_pos hn] at hr
  have hfold := Option.some.inj hr
  rw [← hfold]
  exact exh_fold_nil_iff foods total_kcal

/-- C4, witness for the amended theorem at the concrete input of the
counterexample. -/
theorem C4_witness :
    ([foodZ].length < 64) ∧ exhaustive_max_protein [foodZ] 0 = some [foodZ] ∧
    ([foodZ] = [] ↔ ∀ bits < 2 ^ [foodZ].length,
      (sum_food_vector (subset_of_mask [foodZ] bits)).1 ≤ (0 : Int) →
      subset_of_mask [foodZ] bits = []) :=
  ⟨by decide, by decide,
   C4_exhaustive_empty_iff [foodZ] 0 (by decide) [foodZ] (by decide)⟩
